import Mathlib

/-!
Verification of the moku HTTP router (moku.go) against its specification.

The embedding models paths, segments, methods and parameter values as
`List Char` (Go strings of the relevant byte values).  Go maps
(`map[string]*node`, `map[string]string`) are modelled as association
lists with lookup-first / overwrite-on-insert semantics, matching Go map
reads and writes for the operations the router performs.  Handlers are
opaque in the router (only compared against nil and invoked), so they are
modelled as `Option Nat`: `none` is a nil handler, `some i` an opaque
non-nil handler identified by `i`.

Go panics (out-of-range index or slice) are modelled by returning `none`
from an `Option`-valued function.
-/

namespace Moku

/-- A path segment / map key: a Go string as a list of characters. -/
abbrev Seg := List Char

/-- Association-list lookup, the model of a Go map read `m[k]`:
the first binding of the key wins (keys are unique in all lists the
router builds, since insertion overwrites). -/
def alookup {β : Type} : List (Seg × β) → Seg → Option β
  | [], _ => none
  | (k, v) :: rest, key => if k = key then some v else alookup rest key

/-- Association-list insert, the model of a Go map write `m[k] = v`:
overwrites the binding of the key if present, otherwise appends it. -/
def ainsert {β : Type} : List (Seg × β) → Seg → β → List (Seg × β)
  | [], key, v => [(key, v)]
  | (k, w) :: rest, key, v =>
    if k = key then (key, v) :: rest else (k, w) :: ainsert rest key v

/-- One tree vertex (Go `type node struct`): literal children keyed by
segment (`nodes map[string]*node`), an optional parameter child carrying
its bound name (`pathParam struct { name string; node *node }`, where a
nil `pathParam.node` is `none`), and an optional handler (`handler
Handler`, nil = `none`). -/
inductive Node : Type where
  | mk (children : List (Seg × Node)) (pathParam : Option (Seg × Node))
       (handler : Option Nat)

/-- The literal-children map of a node. -/
def Node.children : Node → List (Seg × Node)
  | .mk c _ _ => c

/-- The parameter child of a node with its bound name, if any. -/
def Node.pathParam : Node → Option (Seg × Node)
  | .mk _ p _ => p

/-- The handler bound to a node, if any. -/
def Node.handler : Node → Option Nat
  | .mk _ _ h => h

/-- Go `newNode()`: empty children map, nil parameter child, nil handler. -/
def newNode : Node := Node.mk [] none none

/-- Go `type Mux struct`.  The `sync.RWMutex` and the lock acquisitions
guarded by `ConcurrentAdd` only serialize concurrent access and have no
effect on the sequential semantics modelled here; `ConcurrentAdd` is kept
as configuration data. -/
structure Mux where
  rootNode : Node
  concurrentAdd : Bool
  redirectTrailingSlash : Bool

/-- Go `New()`: fresh root node, `ConcurrentAdd` and
`RedirectTrailingSlash` default to true. -/
def Mux.new : Mux :=
  { rootNode := newNode, concurrentAdd := true, redirectTrailingSlash := true }

/-- The two error values produced by `addRoute`:
`noLeadingSlash` is `errNoLeadingSlash`, and `pathParamConflict part
existing` is the `fmt.Errorf("Path param ':%s' of '%s' already defined
as ':%s'", part, path, currentNode.pathParam.name)` conflict error,
carrying the conflicting segment and the already-bound name. -/
inductive MokuError : Type where
  | noLeadingSlash
  | pathParamConflict (part existing : Seg)

/-- The loop body of Go `splitString` scans the string with indices
`start` and `i`, emitting `s[start:i]` at each delimiter and `s[start:]`
at the end.  `acc` is the pending slice `s[start:i]`; the remaining
suffix `s[i:]` is the recursion argument.  The Go function takes the
delimiter as a string and splits on its first byte `delimiter[0]`; the
model takes that character directly. -/
def splitStringAux (d : Char) (acc : Seg) : List Char → List Seg
  | [] => [acc]
  | c :: rest =>
    if c = d then acc :: splitStringAux d [] rest
    else splitStringAux d (acc ++ [c]) rest

/-- Go `splitString(s, delimiter, callback)`, as the list of segments
passed to the callback (in order).  The callers below consume this list
with the same early-exit behaviour as the Go callback protocol: a
callback error stops the iteration, so segments after the error point
are never acted on in either version. -/
def splitString (s : List Char) (d : Char) : List Seg :=
  splitStringAux d [] s

/-- The per-segment loop of Go `addRoute` (the `splitString` callback
plus the final `currentNode.handler = handler` assignment).  Returns the
tree as mutated so far together with the error, if any: on a parameter
conflict Go returns the error without rolling back nodes created or
bindings made earlier in the walk, and without binding the handler. -/
def insertSegs : Node → List Seg → Option Nat → Node × Option MokuError
  | n, [], h => (Node.mk n.children n.pathParam h, none)
  | n, part :: rest, h =>
    if part.head? = some ':' then
      -- Go: len(part) > 0 && part[0] == ':'; the name is part[1:] = part.tail
      match n.pathParam with
      | none =>
        -- Go: currentNode.pathParam.node == nil: bind the name, create the child
        let r := insertSegs newNode rest h
        (Node.mk n.children (some (part.tail, r.1)) n.handler, r.2)
      | some (existing, child) =>
        if existing = part.tail then
          let r := insertSegs child rest h
          (Node.mk n.children (some (existing, r.1)) n.handler, r.2)
        else
          -- Go: differently-named parameter already defined here
          (n, some (.pathParamConflict part existing))
    else
      -- Go: look up or create the literal child keyed by the exact segment
      let child := (alookup n.children part).getD newNode
      let r := insertSegs child rest h
      (Node.mk (ainsert n.children part r.1) n.pathParam n.handler, r.2)

/-- Go `(*Mux).addRoute(method, path, handler)`.  `none` models the Go
panic: `path[0]` on the empty path indexes out of range.  Otherwise the
result is the updated mux and the returned error, if any.  Go creates
the method root eagerly before the loop; looking it up (defaulting to a
fresh node) and writing the mutated root back afterwards yields the same
map, since the walk starts from that root. -/
def Mux.addRoute (m : Mux) (method path : List Char) (handler : Option Nat) :
    Option (Mux × Option MokuError) :=
  match path with
  | [] => none
  | c :: rest =>
    if c ≠ '/' then some (m, some .noLeadingSlash)
    else
      let methodRoot := (alookup m.rootNode.children method).getD newNode
      let r := insertSegs methodRoot (splitString rest '/') handler
      let root :=
        Node.mk (ainsert m.rootNode.children method r.1)
          m.rootNode.pathParam m.rootNode.handler
      some ({ m with rootNode := root }, r.2)

/-- Go `(*Mux).Get(path, handler)` = `addRoute("GET", path, handler)`. -/
def Mux.get (m : Mux) (path : List Char) (handler : Option Nat) :
    Option (Mux × Option MokuError) :=
  m.addRoute "GET".data path handler

/-- The mutable state a served request can reach besides the mux itself:
the request-scoped parameter map (`pathParams map[string]string`) and
the request URL path (`r.URL.Path`, written by `setRedirectURL`). -/
structure ReqState where
  params : List (Seg × Seg)
  urlPath : List Char

/-- The walking loop of Go `findHandler` (its `splitString` callback).
Mirrors `lastNode = node; node, ok = nextNodeCandidates[part]; ...`:
prefer a literal child; else take the parameter child when the segment
is non-empty, capturing the parameter; else stop with a dead end (in Go,
`node` is then nil from the failed map lookup and `errDeadEnd` aborts
the split).  The Go callback closure can reach the whole mux through the
captured pointers, so the mux is threaded through as state; no step
writes to it.  Returns (mux, node, lastNode, state, dead-end flag). -/
def walkSegs (m : Mux) (cur : Node) (last : Option Node) (st : ReqState) :
    List Seg → Mux × Option Node × Option Node × ReqState × Bool
  | [] => (m, some cur, last, st, false)
  | part :: rest =>
    match alookup cur.children part with
    | some child => walkSegs m child (some cur) st rest
    | none =>
      match cur.pathParam with
      | some (pname, pnode) =>
        if part ≠ [] then
          walkSegs m pnode (some cur)
            { st with params := ainsert st.params pname part } rest
        else (m, none, some cur, st, true)
      | none => (m, none, some cur, st, true)

/-- The redirect-check condition of Go `findHandler`, line for line:
`node == nil || node.handler == nil`. -/
def nodeNilOrNoHandler : Option Node → Bool
  | none => true
  | some n => n.handler.isNone

/-- Go `setRedirectURL(r, node, lastNode)`.  `path` is `r.URL.Path`;
every caller passes a non-empty path (Go indexes `path[len(path)-1]`,
modelled by `getLast?`).  Returns the redirect decision and the
(possibly rewritten) URL path; the path is written only in the
`return true` branches, exactly as in Go. -/
def setRedirectURL (path : List Char) (node last : Option Node) :
    Bool × List Char :=
  if path.getLast? = some '/' then
    match last with
    | some l => if l.handler.isSome then (true, path.dropLast) else (false, path)
    | none => (false, path)
  else
    match node with
    | some n =>
      match alookup n.children [] with
      | some trailing =>
        if trailing.handler.isSome then (true, path ++ ['/']) else (false, path)
      | none => (false, path)
    | none => (false, path)

/-- Go `(*Mux).findHandler(r, pathParams)`.  `none` models a Go panic:
`r.URL.Path[1:]` slices out of range when the URL path is empty (only
reached when the method has a tree), and the final `node.handler` read
would dereference nil if the walk could end without a node and without a
dead end (it cannot, see `walkSegs_false_some`).  Otherwise returns
(handler, isRedirect, mux, request state) — the Go function's two
results plus the post-state of everything it can write. -/
def Mux.findHandler (m : Mux) (method : List Char) (st : ReqState) :
    Option (Option Nat × Bool × Mux × ReqState) :=
  match alookup m.rootNode.children method with
  | none => some (none, false, m, st)
  | some methodRoot =>
    match st.urlPath with
    | [] => none
    | _ :: pathTail =>
      let w := walkSegs m methodRoot none st (splitString pathTail '/')
      let node := w.2.1
      if m.redirectTrailingSlash && nodeNilOrNoHandler node then
        let rp := setRedirectURL (w.2.2.2.1).urlPath node w.2.2.1
        some (none, rp.1, w.1, { w.2.2.2.1 with urlPath := rp.2 })
      else if w.2.2.2.2 then some (none, false, w.1, w.2.2.2.1)
      else node.map fun n => (n.handler, false, w.1, w.2.2.2.1)

/-- A served request resolves to exactly one of these three outcomes
(Go `ServeHTTPC`: `h.ServeHTTPC(ctx, w, r)`, `http.Redirect(w, r,
r.URL.String(), code)`, or `http.NotFound(w, r)`).  A handler invocation
records the handler and the path parameters it is invoked with; a
redirect records the status code and the Location path. -/
inductive ServeOutcome : Type where
  | handlerInvoked (h : Nat) (params : List (Seg × Seg))
  | redirect (code : Nat) (location : List Char)
  | notFound

/-- Go `(*Mux).ServeHTTPC` for a fresh request (no parameter map in the
incoming context, so a fresh empty one is created).  `none` models a
propagated panic from `findHandler`.  The status code is 301
(`http.StatusMovedPermanently`) when `r.Method == "GET"`, else 307
(`http.StatusTemporaryRedirect`). -/
def Mux.serveHTTPC (m : Mux) (method urlPath : List Char) :
    Option (ServeOutcome × Mux) :=
  match m.findHandler method { params := [], urlPath := urlPath } with
  | none => none
  | some (h, isRed, m', st') =>
    match h with
    | some hid => some (.handlerInvoked hid st'.params, m')
    | none =>
      if isRed then
        some (.redirect (if method = "GET".data then 301 else 307) st'.urlPath, m')
      else some (.notFound, m')

/-! ### Reference definition for the splitting specification -/

/-- Reference split, following the specification's words: the standard
partition of a string on a one-character delimiter, keeping all
(including trailing) empty elements.  To be compared with `splitString`,
which is translated from the source. -/
def splitRef (d : Char) : List Char → List Seg
  | [] => [[]]
  | c :: cs =>
    if c = d then [] :: splitRef d cs
    else
      match splitRef d cs with
      | [] => [[c]]
      | seg :: rest => (c :: seg) :: rest

/-- Prepends a prefix onto the first element of a segment list (used to
relate the accumulator of `splitStringAux` to `splitRef`). -/
def consHead (p : Seg) : List Seg → List Seg
  | [] => [p]
  | s :: rest => (p ++ s) :: rest

/-! ### Tree positions, for stating structural invariants -/

/-- One step down the tree: either the literal child keyed by a segment,
or the parameter child. -/
inductive Edge : Type where
  | lit (seg : Seg)
  | par

/-- The node reached from `n` by following a list of edges, if any. -/
def nodeAt : Node → List Edge → Option Node
  | n, [] => some n
  | n, .lit s :: rest =>
    match alookup n.children s with
    | some c => nodeAt c rest
    | none => none
  | n, .par :: rest =>
    match n.pathParam with
    | some (_, c) => nodeAt c rest
    | none => none

/-- The parameter name bound at the node reached by `pos`, if that node
exists and has a parameter child. -/
def paramNameAt (n : Node) (pos : List Edge) : Option Seg :=
  (nodeAt n pos).bind fun v => v.pathParam.map Prod.fst

/-! ### Concrete scenarios used by the claims -/

/-- Registers a route and keeps the resulting mux, discarding the
returned error (on the modelled panic the mux is unchanged, as the Go
panic fires before any mutation).  Used to build the concrete test muxes
below and to model a sequence of registration calls; the theorems about
the concrete muxes separately assert that each registration in fact
succeeded. -/
def addRouteD (m : Mux) (method path : List Char) (h : Option Nat) : Mux :=
  match m.addRoute method path h with
  | some (m2, _) => m2
  | none => m

/-- A sequence of registration calls `(method, path, handler)`, applied
left to right. -/
def applyRoutes (m : Mux) : List (List Char × List Char × Option Nat) → Mux
  | [] => m
  | (method, path, h) :: rest => applyRoutes (addRouteD m method path h) rest

/-- The scenario mux of claim C5 after registering "/" for GET. -/
def muxC5a : Mux := addRouteD Mux.new "GET".data "/".data (some 0)

/-- The C5 scenario mux after also registering "/a". -/
def muxC5b : Mux := addRouteD muxC5a "GET".data "/a".data (some 1)

/-- The C5 scenario mux after also registering "/a/:id". -/
def muxC5c : Mux := addRouteD muxC5b "GET".data "/a/:id".data (some 2)

/-- The C5 scenario mux after also registering "/b/". -/
def muxC5d : Mux := addRouteD muxC5c "GET".data "/b/".data (some 3)

/-- The scenario mux of claim C5: "/", "/a", "/a/:id", "/b/", "/b/:id/"
registered for GET with handlers 0..4, redirects enabled (the default). -/
def muxC5 : Mux := addRouteD muxC5d "GET".data "/b/:id/".data (some 4)

/-- A mux with only GET "/foo" registered (handler 0). -/
def muxFoo : Mux := addRouteD Mux.new "GET".data "/foo".data (some 0)

/-- The GET method root of `muxFoo`. -/
def fooRoot : Node := Node.mk [("foo".data, Node.mk [] none (some 0))] none none

/-- The "foo" leaf of `muxFoo`. -/
def fooLeaf : Node := Node.mk [] none (some 0)

/-- A fresh request state for the path "/foo/". -/
def stFoo : ReqState := { params := [], urlPath := "/foo/".data }

/-- A mux with only HEAD "/foo" registered (handler 0). -/
def muxHead : Mux := addRouteD Mux.new "HEAD".data "/foo".data (some 0)

/-- A mux with only GET "/:foo" registered (a parameter capture named
"foo" directly under the GET root, handler 0). -/
def muxParamFoo : Mux := addRouteD Mux.new "GET".data "/:foo".data (some 0)

/-- The GET method root produced by registering "/:" on a fresh mux:
a parameter child bound to the empty name, no literal children. -/
def colonRoot : Node := Node.mk [] (some ([], Node.mk [] none (some 0))) none

/-! ## Splitting lemmas -/

theorem splitRef_ne_nil (d : Char) (s : List Char) : splitRef d s ≠ [] := by
  cases s with
  | nil => simp [splitRef]
  | cons c cs =>
    by_cases h : c = d
    · simp [splitRef, h]
    · cases hs : splitRef d cs <;> simp [splitRef, h, hs]

theorem splitStringAux_eq_consHead (d : Char) (s : List Char) :
    ∀ acc, splitStringAux d acc s = consHead acc (splitRef d s) := by
  induction s with
  | nil => intro acc; simp [splitStringAux, splitRef, consHead]
  | cons c cs ih =>
    intro acc
    by_cases h : c = d
    · simp only [splitStringAux, splitRef, if_pos h, ih]
      cases hs : splitRef d cs with
      | nil => exact absurd hs (splitRef_ne_nil d cs)
      | cons seg rest => simp [consHead]
    · simp only [splitStringAux, splitRef, if_neg h, ih]
      cases hs : splitRef d cs with
      | nil => exact absurd hs (splitRef_ne_nil d cs)
      | cons seg rest => simp [consHead, List.append_assoc]

theorem splitString_eq_splitRef (s : List Char) (d : Char) :
    splitString s d = splitRef d s := by
  rw [splitString, splitStringAux_eq_consHead]
  cases hs : splitRef d s with
  | nil => exact absurd hs (splitRef_ne_nil d s)
  | cons seg rest => simp [consHead]

/-! ## Association-list lemmas -/

theorem alookup_ainsert_self {β : Type} (l : List (Seg × β)) (k : Seg) (v : β) :
    alookup (ainsert l k v) k = some v := by
  induction l with
  | nil => simp [ainsert, alookup]
  | cons p rest ih =>
    obtain ⟨k1, w⟩ := p
    by_cases h : k1 = k
    · simp [ainsert, alookup, h]
    · simp [ainsert, alookup, h, ih]

theorem alookup_ainsert_ne {β : Type} (l : List (Seg × β)) (k k2 : Seg) (v : β)
    (h : k2 ≠ k) : alookup (ainsert l k v) k2 = alookup l k2 := by
  have h2 : ¬(k = k2) := fun e => h e.symm
  induction l with
  | nil => simp [ainsert, alookup, h2]
  | cons p rest ih =>
    obtain ⟨k1, w⟩ := p
    by_cases h1 : k1 = k
    · subst h1
      simp [ainsert, alookup, h2]
    · simp [ainsert, alookup, h1, ih]

theorem ainsert_alookup_self {β : Type} (l : List (Seg × β)) (k : Seg) (v : β)
    (h : alookup l k = some v) : ainsert l k v = l := by
  induction l with
  | nil => simp [alookup] at h
  | cons p rest ih =>
    obtain ⟨k1, w⟩ := p
    by_cases hk : k1 = k
    · subst hk
      rw [alookup, if_pos rfl] at h
      injection h with hv
      subst hv
      simp [ainsert]
    · simp only [alookup, if_neg hk] at h
      simp [ainsert, hk, ih h]

/-! ## Node and insertion lemmas -/

theorem Node.eta (n : Node) :
    Node.mk n.children n.pathParam n.handler = n := by
  cases n
  rfl

theorem insertSegs_newNode_noErr (parts : List Seg) (h : Option Nat) :
    (insertSegs newNode parts h).2 = none := by
  induction parts with
  | nil => rfl
  | cons part rest ih =>
    have ih2 : (insertSegs (Node.mk [] none none) rest h).2 = none := ih
    by_cases hc : part.head? = some ':'
    · simp [insertSegs, hc, newNode, Node.pathParam, ih2]
    · simp [insertSegs, hc, newNode, Node.children, alookup, ih2]

theorem insertSegs_err_unchanged :
    ∀ (parts : List Seg) (n : Node) (h : Option Nat) (e : MokuError),
      (insertSegs n parts h).2 = some e → (insertSegs n parts h).1 = n := by
  intro parts
  induction parts with
  | nil => intro n h e he; simp [insertSegs] at he
  | cons part rest ih =>
    intro n h e he
    by_cases hc : part.head? = some ':'
    · cases hp : n.pathParam with
      | none =>
        exfalso
        simp [insertSegs, hc, hp, insertSegs_newNode_noErr] at he
      | some pr =>
        obtain ⟨existing, child⟩ := pr
        by_cases hx : existing = part.tail
        · simp only [insertSegs, if_pos hc, hp, if_pos hx] at he ⊢
          rw [ih child h e he, ← hp, Node.eta]
        · simp [insertSegs, hc, hp, hx]
    · cases ha : alookup n.children part with
      | none =>
        exfalso
        simp [insertSegs, hc, ha, insertSegs_newNode_noErr] at he
      | some c =>
        simp only [insertSegs, if_neg hc, ha, Option.getD_some] at he ⊢
        rw [ih c h e he, ainsert_alookup_self n.children part c ha, Node.eta]

/-! ## Claims C3, C6, C7, C9 -/

/-- Claim C3, counterexample to "including the empty path": registering
the empty path does not return InvalidPathError — the Go code panics
indexing `path[0]` (modelled as `none`). -/
theorem c3_empty_path_cex :
    Mux.new.addRoute "GET".data [] (some 0) = none := rfl

/-- Claim C3 (amended): for every method, handler, and non-empty path
whose first character is not '/', registration returns the
no-leading-slash error and returns the mux unchanged, so every
previously registered route still matches afterwards.  (For the empty
path the code panics instead, see the counterexample.) -/
theorem c3_no_leading_slash (m : Mux) (method : List Char) (h : Option Nat)
    (c : Char) (rest : List Char) (hc : c ≠ '/') :
    m.addRoute method (c :: rest) h = some (m, some .noLeadingSlash) := by
  simp [Mux.addRoute, hc]

theorem c3_no_leading_slash_witness :
    muxFoo.addRoute "GET".data "foo".data (some 1) =
      some (muxFoo, some .noLeadingSlash) := by
  have hd : "foo".data = 'f' :: "oo".data := rfl
  rw [hd]
  exact c3_no_leading_slash muxFoo "GET".data (some 1) 'f' "oo".data (by decide)

/-- Claim C6: the source path-splitting function agrees with the
reference separator-based partition (keeping all empty elements) on
every input, and in particular on the three examples given. -/
theorem c6_split_matches_reference :
    (∀ s : List Char, splitString s '/' = splitRef '/' s) ∧
    splitString "".data '/' = ["".data] ∧
    splitString "/".data '/' = ["".data, "".data] ∧
    splitString "/foo/bar//".data '/' =
      ["".data, "foo".data, "bar".data, "".data, "".data] :=
  ⟨fun s => splitString_eq_splitRef s '/', rfl, rfl, rfl⟩

/-- Claim C7: whenever registration returns the parameter-conflict
error, the returned mux is exactly the input mux — the handler is not
bound to any node and every node present before the call (including any
literal node on the walked path) is still present, unchanged.  (No
literal node can in fact be freshly created before a conflict: a
conflict needs a pre-existing parameter binding, and everything below a
freshly created node is fresh.) -/
theorem c7_conflict_no_mutation (m : Mux) (method path : List Char)
    (h : Option Nat) (m2 : Mux) (part existing : Seg)
    (hcall : m.addRoute method path h =
      some (m2, some (.pathParamConflict part existing))) :
    m2 = m := by
  cases path with
  | nil => simp [Mux.addRoute] at hcall
  | cons c rest =>
    by_cases hs : c = '/'
    · subst hs
      simp only [Mux.addRoute, ne_eq, not_true_eq_false, if_false, ite_false,
        Option.some.injEq, Prod.mk.injEq] at hcall
      obtain ⟨hA, hB⟩ := hcall
      cases ha : alookup m.rootNode.children method with
      | none =>
        rw [ha, Option.getD_none] at hB
        rw [insertSegs_newNode_noErr] at hB
        exact absurd hB (by simp)
      | some root =>
        rw [ha, Option.getD_some] at hA hB
        have hroot := insertSegs_err_unchanged (splitString rest '/') root h _ hB
        rw [hroot, ainsert_alookup_self m.rootNode.children method root ha,
          Node.eta] at hA
        rw [← hA]
    · simp [Mux.addRoute, hs] at hcall

theorem c7_conflict_no_mutation_witness :
    muxParamFoo.addRoute "GET".data "/:bar".data (some 1) =
      some (muxParamFoo, some (.pathParamConflict ":bar".data "foo".data)) ∧
    muxParamFoo = muxParamFoo :=
  ⟨rfl, c7_conflict_no_mutation muxParamFoo "GET".data "/:bar".data (some 1)
    muxParamFoo ":bar".data "foo".data rfl⟩

/-- Claim C9, counterexample: registering the path "/:" (a segment that
is exactly the parameter sigil) creates a parameter child bound to the
empty name, not a literal child keyed ":". -/
theorem c9_colon_segment_cex :
    Mux.new.addRoute "GET".data "/:".data (some 0) =
      some ({ Mux.new with rootNode := Node.mk [("GET".data, colonRoot)] none none }, none) ∧
    alookup colonRoot.children ":".data = none ∧
    colonRoot.pathParam.map Prod.fst = some [] :=
  ⟨rfl, rfl, rfl⟩

/-- Claim C9 (amended): the parameter branch of registration applies to
every non-empty segment starting with ':', including the bare sigil
":" — the bound name is the remainder of the segment, which is empty for
":".  On a node with no parameter child yet, such a segment (as the last
one) creates a parameter child bound to that remainder, holding the
handler, and leaves the literal-children map untouched. -/
theorem c9_param_sigil_branch (n : Node) (h : Option Nat) (part : Seg)
    (hc : part.head? = some ':') (hp : n.pathParam = none) :
    insertSegs n [part] h =
      (Node.mk n.children (some (part.tail, Node.mk [] none h)) n.handler, none) := by
  obtain ⟨ch, pp, hd⟩ := n
  simp only [Node.pathParam] at hp
  subst hp
  simp [insertSegs, hc, newNode, Node.children, Node.pathParam, Node.handler]

theorem c9_param_sigil_branch_witness :
    (":".data.head? = some ':' ∧ (newNode : Node).pathParam = none) ∧
    insertSegs newNode [":".data] (some 0) =
      (Node.mk [] (some ([], Node.mk [] none (some 0))) none, none) :=
  ⟨⟨rfl, rfl⟩, c9_param_sigil_branch newNode (some 0) ":".data rfl rfl⟩

/-! ## Walk lemmas -/

theorem walkSegs_mux (m : Mux) :
    ∀ (parts : List Seg) (cur : Node) (last : Option Node) (st : ReqState),
      (walkSegs m cur last st parts).1 = m := by
  intro parts
  induction parts with
  | nil => intro cur last st; rfl
  | cons part rest ih =>
    intro cur last st
    cases ha : alookup cur.children part with
    | some child => simp [walkSegs, ha, ih]
    | none =>
      cases hp : cur.pathParam with
      | none => simp [walkSegs, ha, hp]
      | some pr =>
        obtain ⟨pname, pnode⟩ := pr
        by_cases hne : part = []
        · subst hne
          simp [walkSegs, ha, hp]
        · simp [walkSegs, ha, hp, hne, ih]

theorem walkSegs_urlPath (m : Mux) :
    ∀ (parts : List Seg) (cur : Node) (last : Option Node) (st : ReqState),
      ((walkSegs m cur last st parts).2.2.2.1).urlPath = st.urlPath := by
  intro parts
  induction parts with
  | nil => intro cur last st; rfl
  | cons part rest ih =>
    intro cur last st
    cases ha : alookup cur.children part with
    | some child => simp [walkSegs, ha, ih]
    | none =>
      cases hp : cur.pathParam with
      | none => simp [walkSegs, ha, hp]
      | some pr =>
        obtain ⟨pname, pnode⟩ := pr
        by_cases hne : part = []
        · subst hne
          simp [walkSegs, ha, hp]
        · simp [walkSegs, ha, hp, hne, ih]

theorem walkSegs_dead_none (m : Mux) :
    ∀ (parts : List Seg) (cur : Node) (last : Option Node) (st : ReqState),
      (walkSegs m cur last st parts).2.2.2.2 = true →
      (walkSegs m cur last st parts).2.1 = none := by
  intro parts
  induction parts with
  | nil => intro cur last st hd; simp [walkSegs] at hd
  | cons part rest ih =>
    intro cur last st hd
    cases ha : alookup cur.children part with
    | some child =>
      rw [walkSegs] at hd ⊢
      simp only [ha] at hd ⊢
      exact ih child (some cur) st hd
    | none =>
      cases hp : cur.pathParam with
      | none => simp [walkSegs, ha, hp]
      | some pr =>
        obtain ⟨pname, pnode⟩ := pr
        by_cases hne : part = []
        · subst hne
          simp [walkSegs, ha, hp]
        · rw [walkSegs] at hd ⊢
          simp only [ha, hp, hne, ite_false, ite_true, ne_eq,
            not_false_eq_true, if_true, if_false] at hd ⊢
          exact ih pnode (some cur) _ hd

theorem walkSegs_not_dead_isSome (m : Mux) :
    ∀ (parts : List Seg) (cur : Node) (last : Option Node) (st : ReqState),
      (walkSegs m cur last st parts).2.2.2.2 = false →
      ((walkSegs m cur last st parts).2.1).isSome = true := by
  intro parts
  induction parts with
  | nil => intro cur last st _; rfl
  | cons part rest ih =>
    intro cur last st hd
    cases ha : alookup cur.children part with
    | some child =>
      rw [walkSegs] at hd ⊢
      simp only [ha] at hd ⊢
      exact ih child (some cur) st hd
    | none =>
      cases hp : cur.pathParam with
      | none => simp [walkSegs, ha, hp] at hd
      | some pr =>
        obtain ⟨pname, pnode⟩ := pr
        by_cases hne : part = []
        · subst hne
          simp [walkSegs, ha, hp] at hd
        · rw [walkSegs] at hd ⊢
          simp only [ha, hp, hne, ite_false, ite_true, ne_eq,
            not_false_eq_true, if_true, if_false] at hd ⊢
          exact ih pnode (some cur) _ hd

/-! ## Redirect and matching lemmas -/

theorem setRedirectURL_not_redirect (path : List Char) (node last : Option Node)
    (h : (setRedirectURL path node last).1 = false) :
    (setRedirectURL path node last).2 = path := by
  by_cases hl : path.getLast? = some '/'
  · simp only [setRedirectURL, if_pos hl] at h ⊢
    cases last with
    | none => rfl
    | some l =>
      by_cases hh : l.handler.isSome = true
      · simp [hh] at h
      · simp [hh]
  · simp only [setRedirectURL, if_neg hl] at h ⊢
    cases node with
    | none => rfl
    | some n =>
      cases ht : alookup n.children [] with
      | none => simp [ht]
      | some trailing =>
        by_cases hh : trailing.handler.isSome = true
        · simp [ht, hh] at h
        · simp [ht, hh]

theorem findHandler_isSome (m : Mux) (method : List Char) (st : ReqState)
    (hne : st.urlPath ≠ []) : (m.findHandler method st).isSome = true := by
  unfold Mux.findHandler
  cases hm : alookup m.rootNode.children method with
  | none => rfl
  | some methodRoot =>
    cases hu : st.urlPath with
    | nil => exact absurd hu hne
    | cons c tail =>
      by_cases hred : (m.redirectTrailingSlash &&
          nodeNilOrNoHandler
            (walkSegs m methodRoot none st (splitString tail '/')).2.1) = true
      · simp only [hred, if_true]
        rfl
      · simp only [hred, if_false, Bool.not_eq_true]
        by_cases hd : (walkSegs m methodRoot none st (splitString tail '/')).2.2.2.2 = true
        · simp [hd]
        · have hd2 : (walkSegs m methodRoot none st (splitString tail '/')).2.2.2.2 = false := by
            simpa using hd
          have hs := walkSegs_not_dead_isSome m (splitString tail '/') methodRoot none st hd2
          simp only [hd2, if_false]
          cases hn : (walkSegs m methodRoot none st (splitString tail '/')).2.1 with
          | none => rw [hn] at hs; simp at hs
          | some n => simp [hd2]

/-! ## Claims C10, C4, C1, C2, C5 -/

theorem findHandler_eq_of (m : Mux) (method : List Char) (st : ReqState)
    (methodRoot : Node) (c : Char) (tail : List Char) (m3 : Mux)
    (nodeW lastW : Option Node) (stW : ReqState) (dead : Bool)
    (hm : alookup m.rootNode.children method = some methodRoot)
    (hu : st.urlPath = c :: tail)
    (hw : walkSegs m methodRoot none st (splitString tail '/') =
      (m3, nodeW, lastW, stW, dead)) :
    m.findHandler method st =
      if m.redirectTrailingSlash && nodeNilOrNoHandler nodeW then
        some (none, (setRedirectURL stW.urlPath nodeW lastW).1, m3,
          { stW with urlPath := (setRedirectURL stW.urlPath nodeW lastW).2 })
      else if dead then some (none, false, m3, stW)
      else nodeW.map fun n => (n.handler, false, m3, stW) := by
  unfold Mux.findHandler
  simp only [hm, hu, hw]

theorem findHandler_eq_of_no_method (m : Mux) (method : List Char)
    (st : ReqState) (hm : alookup m.rootNode.children method = none) :
    m.findHandler method st = some (none, false, m, st) := by
  unfold Mux.findHandler
  rw [hm]

/-- Claim C10: matching never mutates the route trees — the mux coming
out of `findHandler` is the one that went in, so every node's
literal-children map, parameter-child binding and handler are identical
before and after the match; and the request URL path is written only on
a redirect decision (only the request-scoped parameter map is otherwise
written). -/
theorem c10_match_frame (m : Mux) (method : List Char) (st : ReqState)
    (h : Option Nat) (isRed : Bool) (m2 : Mux) (st2 : ReqState)
    (hcall : m.findHandler method st = some (h, isRed, m2, st2)) :
    m2 = m ∧ (isRed = false → st2.urlPath = st.urlPath) := by
  cases hm : alookup m.rootNode.children method with
  | none =>
    rw [findHandler_eq_of_no_method m method st hm] at hcall
    simp only [Option.some.injEq, Prod.mk.injEq] at hcall
    exact ⟨hcall.2.2.1.symm, fun _ => by rw [← hcall.2.2.2]⟩
  | some methodRoot =>
    cases hu : st.urlPath with
    | nil =>
      have heq : m.findHandler method st = none := by
        unfold Mux.findHandler
        rw [hm, hu]
      rw [heq] at hcall
      exact absurd hcall (by simp)
    | cons c tail =>
      rcases hw : walkSegs m methodRoot none st (splitString tail '/') with
        ⟨m3, nodeW, lastW, stW, dead⟩
      have hmux : m3 = m := by
        have h2 := walkSegs_mux m (splitString tail '/') methodRoot none st
        rw [hw] at h2
        exact h2
      have hurl : stW.urlPath = st.urlPath := by
        have h2 := walkSegs_urlPath m (splitString tail '/') methodRoot none st
        rw [hw] at h2
        exact h2
      rw [findHandler_eq_of m method st methodRoot c tail m3 nodeW lastW stW
        dead hm hu hw] at hcall
      by_cases hred : (m.redirectTrailingSlash && nodeNilOrNoHandler nodeW) = true
      · rw [if_pos hred] at hcall
        simp only [Option.some.injEq, Prod.mk.injEq] at hcall
        obtain ⟨hh, hr, hm2, hst⟩ := hcall
        refine ⟨hm2.symm.trans hmux, fun hrf => ?_⟩
        rw [← hst]
        have hzero : (setRedirectURL stW.urlPath nodeW lastW).1 = false := by
          rw [hr, hrf]
        show (setRedirectURL stW.urlPath nodeW lastW).2 = c :: tail
        rw [setRedirectURL_not_redirect _ _ _ hzero]
        exact hurl.trans hu
      · rw [if_neg hred] at hcall
        cases dead with
        | true =>
          rw [if_pos rfl] at hcall
          simp only [Option.some.injEq, Prod.mk.injEq] at hcall
          exact ⟨hcall.2.2.1.symm.trans hmux,
            fun _ => hcall.2.2.2 ▸ (hurl.trans hu)⟩
        | false =>
          rw [if_neg (by simp)] at hcall
          cases nodeW with
          | none => exact absurd hcall (by simp)
          | some n =>
            simp only [Option.map_some', Option.some.injEq, Prod.mk.injEq] at hcall
            exact ⟨hcall.2.2.1.symm.trans hmux,
              fun _ => hcall.2.2.2 ▸ (hurl.trans hu)⟩

theorem c10_match_frame_witness :
    muxFoo.findHandler "GET".data stFoo =
      some (none, true, muxFoo, { params := [], urlPath := "/foo".data }) ∧
    muxFoo = muxFoo :=
  ⟨rfl, (c10_match_frame muxFoo "GET".data stFoo none true muxFoo
    { params := [], urlPath := "/foo".data } rfl).1⟩

/-- Claim C4, counterexample to "any URL path string, including the
empty path": serving a request with an empty URL path on a mux whose
method tree exists does not complete — the Go code panics slicing
`r.URL.Path[1:]` (modelled as `none`). -/
theorem c4_empty_path_cex :
    muxFoo.serveHTTPC "GET".data [] = none := rfl

/-- Claim C4 (amended): for every method string and every non-empty URL
path string, the serving entry point completes, producing exactly one
outcome — a handler invocation, a redirect, or not-found.  (For the
empty path with the method's tree present the code panics, see the
counterexample.) -/
theorem c4_serve_total (m : Mux) (method urlPath : List Char)
    (hne : urlPath ≠ []) :
    ∃ (outcome : ServeOutcome) (m2 : Mux),
      m.serveHTTPC method urlPath = some (outcome, m2) := by
  unfold Mux.serveHTTPC
  have hf := findHandler_isSome m method { params := [], urlPath := urlPath } hne
  cases hfh : m.findHandler method { params := [], urlPath := urlPath } with
  | none => rw [hfh] at hf; simp at hf
  | some r =>
    obtain ⟨h, isRed, m2, st2⟩ := r
    cases h with
    | some hid => exact ⟨_, _, rfl⟩
    | none =>
      by_cases hr : isRed = true
      · rw [hr]
        exact ⟨_, _, rfl⟩
      · have hr2 : isRed = false := by simpa using hr
        rw [hr2]
        exact ⟨_, _, rfl⟩

theorem c4_serve_total_witness :
    ("/foo/".data ≠ ([] : List Char)) ∧
    ∃ (outcome : ServeOutcome) (m2 : Mux),
      muxFoo.serveHTTPC "GET".data "/foo/".data = some (outcome, m2) :=
  ⟨by decide, c4_serve_total muxFoo "GET".data "/foo/".data (by decide)⟩

/-- Claim C1, counterexample: with GET "/foo" registered and redirects
enabled (the default), the walk for "/foo/" hits a dead end (at the
final empty segment), yet matching returns a redirect (to "/foo"), not
not-found. -/
theorem c1_dead_end_cex :
    walkSegs muxFoo fooRoot none stFoo (splitString "foo/".data '/') =
      (muxFoo, none, some fooLeaf, stFoo, true) ∧
    muxFoo.findHandler "GET".data stFoo =
      some (none, true, muxFoo, { params := [], urlPath := "/foo".data }) :=
  ⟨rfl, rfl⟩

/-- Claim C1 (amended): if the walk hits a dead end, matching never
returns a handler.  With redirect-trailing-slash disabled the result is
not-found.  With it enabled the result is a redirect exactly when the
requested path ends with the separator and the node before the failed
hop carries a handler — the request path is then rewritten to the path
with its trailing separator stripped (the redirect target); otherwise
not-found and the request path is left unchanged. -/
theorem c1_dead_end (m : Mux) (method : List Char) (st : ReqState)
    (methodRoot : Node) (c : Char) (tail : List Char) (m3 : Mux)
    (nodeW lastW : Option Node) (stW : ReqState)
    (hm : alookup m.rootNode.children method = some methodRoot)
    (hu : st.urlPath = c :: tail)
    (hw : walkSegs m methodRoot none st (splitString tail '/') =
      (m3, nodeW, lastW, stW, true)) :
    ∃ (isRed : Bool) (st2 : ReqState),
      m.findHandler method st = some (none, isRed, m3, st2) ∧
      (m.redirectTrailingSlash = false → isRed = false) ∧
      (isRed = true ↔ m.redirectTrailingSlash = true ∧
        stW.urlPath.getLast? = some '/' ∧
        ∃ l, lastW = some l ∧ l.handler.isSome = true) ∧
      (isRed = true → st2.urlPath = stW.urlPath.dropLast) ∧
      (isRed = false → st2.urlPath = stW.urlPath) := by
  have hnone : nodeW = none := by
    have h2 := walkSegs_dead_none m (splitString tail '/') methodRoot none st
    rw [hw] at h2
    exact h2 rfl
  subst hnone
  rw [findHandler_eq_of m method st methodRoot c tail m3 none lastW stW true
    hm hu hw]
  cases hrt : m.redirectTrailingSlash with
  | false =>
    refine ⟨false, stW, ?_, fun _ => rfl, ?_,
      fun hf => Bool.noConfusion hf, fun _ => rfl⟩
    · simp [hrt, nodeNilOrNoHandler]
    · simp [hrt]
  | true =>
    by_cases hl : stW.urlPath.getLast? = some '/'
    · cases lastW with
      | none =>
        refine ⟨false, stW, ?_, fun _ => rfl, ?_,
          fun hf => Bool.noConfusion hf, fun _ => rfl⟩
        · simp [hrt, nodeNilOrNoHandler, setRedirectURL, hl]
        · simp
      | some l =>
        by_cases hh : l.handler.isSome = true
        · refine ⟨true, { stW with urlPath := stW.urlPath.dropLast }, ?_, ?_, ?_,
            fun _ => rfl, fun hf => Bool.noConfusion hf⟩
          · simp [hrt, nodeNilOrNoHandler, setRedirectURL, hl, hh]
          · exact fun hf => hf
          · simp [hrt, hl, hh]
        · refine ⟨false, stW, ?_, fun _ => rfl, ?_,
            fun hf => Bool.noConfusion hf, fun _ => rfl⟩
          · simp [hrt, nodeNilOrNoHandler, setRedirectURL, hl, hh]
          · simp [hl, hh]
    · refine ⟨false, stW, ?_, fun _ => rfl, ?_,
        fun hf => Bool.noConfusion hf, fun _ => rfl⟩
      · simp [hrt, nodeNilOrNoHandler, setRedirectURL, hl]
      · simp [hl]

theorem c1_dead_end_witness :
    (alookup muxFoo.rootNode.children "GET".data = some fooRoot ∧
     stFoo.urlPath = '/' :: "foo/".data ∧
     walkSegs muxFoo fooRoot none stFoo (splitString "foo/".data '/') =
       (muxFoo, none, some fooLeaf, stFoo, true)) ∧
    ∃ (isRed : Bool) (st2 : ReqState),
      muxFoo.findHandler "GET".data stFoo = some (none, isRed, muxFoo, st2) ∧
      (muxFoo.redirectTrailingSlash = false → isRed = false) ∧
      (isRed = true ↔ muxFoo.redirectTrailingSlash = true ∧
        stFoo.urlPath.getLast? = some '/' ∧
        ∃ l, (some fooLeaf : Option Node) = some l ∧ l.handler.isSome = true) ∧
      (isRed = true → st2.urlPath = stFoo.urlPath.dropLast) ∧
      (isRed = false → st2.urlPath = stFoo.urlPath) :=
  ⟨⟨rfl, rfl, rfl⟩, c1_dead_end muxFoo "GET".data stFoo fooRoot '/' "foo/".data
    muxFoo none (some fooLeaf) stFoo rfl rfl rfl⟩

/-- Claim C2, counterexample: a HEAD request that resolves to a redirect
is answered with status 307 (temporary redirect), not 301 — the code
only gives 301 to the exact method "GET". -/
theorem c2_head_redirect_cex :
    muxHead.serveHTTPC "HEAD".data "/foo/".data =
      some (.redirect 307 "/foo".data, muxHead) ∧ (307 : Nat) ≠ 301 :=
  ⟨rfl, by decide⟩

/-- Claim C2 (amended): every request that matching resolves to a
redirect is emitted with status 301 (moved permanently) exactly when the
method is GET, and 307 (temporary redirect) for every other method —
including HEAD. -/
theorem c2_redirect_code (m : Mux) (method urlPath : List Char)
    (code : Nat) (loc : List Char) (m2 : Mux)
    (hcall : m.serveHTTPC method urlPath = some (.redirect code loc, m2)) :
    code = if method = "GET".data then 301 else 307 := by
  unfold Mux.serveHTTPC at hcall
  cases hf : m.findHandler method { params := [], urlPath := urlPath } with
  | none => rw [hf] at hcall; simp at hcall
  | some r =>
    obtain ⟨h, isRed, m3, st3⟩ := r
    rw [hf] at hcall
    cases h with
    | some hid => simp at hcall
    | none =>
      by_cases hr : isRed = true
      · rw [hr] at hcall
        simp only [if_true, Option.some.injEq, Prod.mk.injEq,
          ServeOutcome.redirect.injEq] at hcall
        exact hcall.1.1.symm
      · have hr2 : isRed = false := by simpa using hr
        rw [hr2] at hcall
        simp at hcall

theorem c2_redirect_code_witness :
    muxHead.serveHTTPC "HEAD".data "/foo/".data =
      some (.redirect 307 "/foo".data, muxHead) ∧
    (307 : Nat) = if "HEAD".data = "GET".data then 301 else 307 :=
  ⟨rfl, c2_redirect_code muxHead "HEAD".data "/foo/".data 307 "/foo".data
    muxHead rfl⟩

/-- Claim C5: with "/", "/a", "/a/:id", "/b/", "/b/:id/" registered for
GET (each registration succeeding) and redirect-trailing-slash enabled,
a GET request to "/a/" yields a 301 redirect to "/a"; to "/b" a 301
redirect to "/b/"; to "/a/5" the handler registered for "/a/:id" with
captured parameters {id: "5"}; and to "/b/5" a 301 redirect to
"/b/5/". -/
theorem c5_scenario :
    Mux.new.addRoute "GET".data "/".data (some 0) = some (muxC5a, none) ∧
    muxC5a.addRoute "GET".data "/a".data (some 1) = some (muxC5b, none) ∧
    muxC5b.addRoute "GET".data "/a/:id".data (some 2) = some (muxC5c, none) ∧
    muxC5c.addRoute "GET".data "/b/".data (some 3) = some (muxC5d, none) ∧
    muxC5d.addRoute "GET".data "/b/:id/".data (some 4) = some (muxC5, none) ∧
    muxC5.redirectTrailingSlash = true ∧
    muxC5.serveHTTPC "GET".data "/a/".data =
      some (.redirect 301 "/a".data, muxC5) ∧
    muxC5.serveHTTPC "GET".data "/b".data =
      some (.redirect 301 "/b/".data, muxC5) ∧
    muxC5.serveHTTPC "GET".data "/a/5".data =
      some (.handlerInvoked 2 [("id".data, "5".data)], muxC5) ∧
    muxC5.serveHTTPC "GET".data "/b/5".data =
      some (.redirect 301 "/b/5/".data, muxC5) :=
  ⟨rfl, rfl, rfl, rfl, rfl, rfl, rfl, rfl, rfl, rfl⟩

/-! ## Claim C8: parameter names are fixed at first use -/

@[simp]
theorem Node.children_mk (c : List (Seg × Node)) (p : Option (Seg × Node))
    (h : Option Nat) : (Node.mk c p h).children = c := rfl

@[simp]
theorem Node.pathParam_mk (c : List (Seg × Node)) (p : Option (Seg × Node))
    (h : Option Nat) : (Node.mk c p h).pathParam = p := rfl

@[simp]
theorem Node.handler_mk (c : List (Seg × Node)) (p : Option (Seg × Node))
    (h : Option Nat) : (Node.mk c p h).handler = h := rfl

theorem nodeAt_lit_some {n c : Node} {s : Seg} (ps : List Edge)
    (h : alookup n.children s = some c) :
    nodeAt n (Edge.lit s :: ps) = nodeAt c ps := by
  rw [nodeAt, h]

theorem nodeAt_lit_none {n : Node} {s : Seg} (ps : List Edge)
    (h : alookup n.children s = none) :
    nodeAt n (Edge.lit s :: ps) = none := by
  rw [nodeAt, h]

theorem nodeAt_par_some {n c : Node} {nm : Seg} (ps : List Edge)
    (h : n.pathParam = some (nm, c)) :
    nodeAt n (Edge.par :: ps) = nodeAt c ps := by
  rw [nodeAt, h]

theorem nodeAt_par_none {n : Node} (ps : List Edge)
    (h : n.pathParam = none) :
    nodeAt n (Edge.par :: ps) = none := by
  rw [nodeAt, h]

theorem paramNameAt_nil (n : Node) :
    paramNameAt n [] = n.pathParam.map Prod.fst := rfl

theorem paramNameAt_lit_some {n c : Node} {s : Seg} (ps : List Edge)
    (h : alookup n.children s = some c) :
    paramNameAt n (Edge.lit s :: ps) = paramNameAt c ps := by
  unfold paramNameAt
  rw [nodeAt_lit_some ps h]

theorem paramNameAt_lit_none {n : Node} {s : Seg} (ps : List Edge)
    (h : alookup n.children s = none) :
    paramNameAt n (Edge.lit s :: ps) = none := by
  unfold paramNameAt
  rw [nodeAt_lit_none ps h]
  rfl

theorem paramNameAt_par_some {n c : Node} {nm : Seg} (ps : List Edge)
    (h : n.pathParam = some (nm, c)) :
    paramNameAt n (Edge.par :: ps) = paramNameAt c ps := by
  unfold paramNameAt
  rw [nodeAt_par_some ps h]

theorem paramNameAt_par_none {n : Node} (ps : List Edge)
    (h : n.pathParam = none) :
    paramNameAt n (Edge.par :: ps) = none := by
  unfold paramNameAt
  rw [nodeAt_par_none ps h]
  rfl

theorem paramNameAt_mk_nil (a : List (Seg × Node)) (p : Option (Seg × Node))
    (hd : Option Nat) :
    paramNameAt (Node.mk a p hd) [] = p.map Prod.fst := rfl

theorem paramNameAt_mk_par_some (a : List (Seg × Node)) (nm : Seg) (c : Node)
    (hd : Option Nat) (ps : List Edge) :
    paramNameAt (Node.mk a (some (nm, c)) hd) (Edge.par :: ps) =
      paramNameAt c ps :=
  paramNameAt_par_some ps rfl

theorem paramNameAt_mk_lit_some (a : List (Seg × Node))
    (p : Option (Seg × Node)) (hd : Option Nat) {s : Seg} {c : Node}
    (h : alookup a s = some c) (ps : List Edge) :
    paramNameAt (Node.mk a p hd) (Edge.lit s :: ps) = paramNameAt c ps :=
  paramNameAt_lit_some ps (show alookup (Node.mk a p hd).children s = some c
    from h)

theorem insertSegs_nil_fst (n : Node) (h : Option Nat) :
    (insertSegs n [] h).1 = Node.mk n.children n.pathParam h := rfl

theorem insertSegs_param_new_fst {n : Node} {part : Seg} (rest : List Seg)
    (h : Option Nat) (hc : part.head? = some ':') (hp : n.pathParam = none) :
    (insertSegs n (part :: rest) h).1 =
      Node.mk n.children (some (part.tail, (insertSegs newNode rest h).1))
        n.handler := by
  simp only [insertSegs, if_pos hc, hp]

theorem insertSegs_param_same_fst {n child : Node} {part nm : Seg}
    (rest : List Seg) (h : Option Nat) (hc : part.head? = some ':')
    (hp : n.pathParam = some (nm, child)) (hx : nm = part.tail) :
    (insertSegs n (part :: rest) h).1 =
      Node.mk n.children (some (nm, (insertSegs child rest h).1)) n.handler := by
  simp only [insertSegs, if_pos hc, hp, if_pos hx]

theorem insertSegs_param_conflict_fst {n child : Node} {part nm : Seg}
    (rest : List Seg) (h : Option Nat) (hc : part.head? = some ':')
    (hp : n.pathParam = some (nm, child)) (hx : ¬nm = part.tail) :
    (insertSegs n (part :: rest) h).1 = n := by
  simp only [insertSegs, if_pos hc, hp, if_neg hx]

theorem insertSegs_lit_fst {part : Seg} (n : Node) (rest : List Seg)
    (h : Option Nat) (hc : ¬part.head? = some ':') :
    (insertSegs n (part :: rest) h).1 =
      Node.mk (ainsert n.children part
          (insertSegs ((alookup n.children part).getD newNode) rest h).1)
        n.pathParam n.handler := by
  simp only [insertSegs, if_neg hc]

theorem insertSegs_paramNameAt :
    ∀ (parts : List Seg) (n : Node) (h : Option Nat) (pos : List Edge)
      (name : Seg),
      paramNameAt n pos = some name →
      paramNameAt (insertSegs n parts h).1 pos = some name := by
  intro parts
  induction parts with
  | nil =>
    intro n h pos name hname
    rw [insertSegs_nil_fst]
    cases pos with
    | nil =>
      rw [paramNameAt_mk_nil]
      rw [paramNameAt_nil] at hname
      exact hname
    | cons e ps =>
      cases e with
      | lit s =>
        cases ha : alookup n.children s with
        | none =>
          rw [paramNameAt_lit_none ps ha] at hname
          exact Option.noConfusion hname
        | some c0 =>
          rw [paramNameAt_lit_some ps ha] at hname
          rw [paramNameAt_mk_lit_some _ _ _ ha ps]
          exact hname
      | par =>
        cases hp : n.pathParam with
        | none =>
          rw [paramNameAt_par_none ps hp] at hname
          exact Option.noConfusion hname
        | some pr =>
          obtain ⟨nm, c0⟩ := pr
          rw [paramNameAt_par_some ps hp] at hname
          rw [paramNameAt_mk_par_some]
          exact hname
  | cons part rest ih =>
    intro n h pos name hname
    by_cases hc : part.head? = some ':'
    · cases hp : n.pathParam with
      | none =>
        rw [insertSegs_param_new_fst rest h hc hp]
        cases pos with
        | nil =>
          rw [paramNameAt_nil, hp] at hname
          exact Option.noConfusion hname
        | cons e ps =>
          cases e with
          | lit s =>
            cases ha : alookup n.children s with
            | none =>
              rw [paramNameAt_lit_none ps ha] at hname
              exact Option.noConfusion hname
            | some c0 =>
              rw [paramNameAt_lit_some ps ha] at hname
              rw [paramNameAt_mk_lit_some _ _ _ ha ps]
              exact hname
          | par =>
            rw [paramNameAt_par_none ps hp] at hname
            exact Option.noConfusion hname
      | some pr =>
        obtain ⟨nm, child⟩ := pr
        by_cases hx : nm = part.tail
        · rw [insertSegs_param_same_fst rest h hc hp hx]
          cases pos with
          | nil =>
            rw [paramNameAt_nil, hp] at hname
            rw [paramNameAt_mk_nil]
            exact hname
          | cons e ps =>
            cases e with
            | lit s =>
              cases ha : alookup n.children s with
              | none =>
                rw [paramNameAt_lit_none ps ha] at hname
                exact Option.noConfusion hname
              | some c0 =>
                rw [paramNameAt_lit_some ps ha] at hname
                rw [paramNameAt_mk_lit_some _ _ _ ha ps]
                exact hname
            | par =>
              rw [paramNameAt_par_some ps hp] at hname
              rw [paramNameAt_mk_par_some]
              exact ih child h ps name hname
        · rw [insertSegs_param_conflict_fst rest h hc hp hx]
          exact hname
    · rw [insertSegs_lit_fst n rest h hc]
      cases pos with
      | nil =>
        rw [paramNameAt_mk_nil]
        rw [paramNameAt_nil] at hname
        exact hname
      | cons e ps =>
        cases e with
        | par =>
          cases hp : n.pathParam with
          | none =>
            rw [paramNameAt_par_none ps hp] at hname
            exact Option.noConfusion hname
          | some pr =>
            obtain ⟨nm2, c2⟩ := pr
            rw [paramNameAt_par_some ps hp] at hname
            rw [paramNameAt_mk_par_some]
            exact hname
        | lit s =>
          by_cases hs : s = part
          · subst hs
            cases ha : alookup n.children s with
            | none =>
              rw [paramNameAt_lit_none ps ha] at hname
              exact Option.noConfusion hname
            | some c0 =>
              rw [paramNameAt_lit_some ps ha] at hname
              rw [paramNameAt_mk_lit_some _ _ _
                (alookup_ainsert_self n.children s _) ps]
              simp only [Option.getD_some]
              exact ih c0 h ps name hname
          · cases ha : alookup n.children s with
            | none =>
              rw [paramNameAt_lit_none ps ha] at hname
              exact Option.noConfusion hname
            | some c0 =>
              rw [paramNameAt_lit_some ps ha] at hname
              rw [paramNameAt_mk_lit_some _ _ _
                ((alookup_ainsert_ne n.children part s _ hs).trans ha) ps]
              exact hname

theorem addRouteD_paramNameAt (m : Mux) (method path : List Char)
    (h : Option Nat) (pos : List Edge) (name : Seg)
    (hname : paramNameAt m.rootNode pos = some name) :
    paramNameAt (addRouteD m method path h).rootNode pos = some name := by
  cases path with
  | nil => exact hname
  | cons c rest =>
    by_cases hs : c = '/'
    · subst hs
      have h1 : m.addRoute method ('/' :: rest) h =
          some (Mux.mk
            (Node.mk
              (ainsert m.rootNode.children method
                (insertSegs ((alookup m.rootNode.children method).getD newNode)
                  (splitString rest '/') h).1)
              m.rootNode.pathParam m.rootNode.handler)
            m.concurrentAdd m.redirectTrailingSlash,
            (insertSegs ((alookup m.rootNode.children method).getD newNode)
              (splitString rest '/') h).2) := rfl
      have heq : addRouteD m method ('/' :: rest) h =
          Mux.mk
            (Node.mk
              (ainsert m.rootNode.children method
                (insertSegs ((alookup m.rootNode.children method).getD newNode)
                  (splitString rest '/') h).1)
              m.rootNode.pathParam m.rootNode.handler)
            m.concurrentAdd m.redirectTrailingSlash := by
        unfold addRouteD
        rw [h1]
      rw [heq]
      cases pos with
      | nil =>
        rw [paramNameAt_nil] at hname ⊢
        exact hname
      | cons e ps =>
        cases e with
        | par =>
          cases hp : m.rootNode.pathParam with
          | none =>
            rw [paramNameAt_par_none ps hp] at hname
            exact Option.noConfusion hname
          | some pr =>
            obtain ⟨nm2, c2⟩ := pr
            rw [paramNameAt_par_some ps hp] at hname
            rw [paramNameAt_mk_par_some]
            exact hname
        | lit s =>
          by_cases hsm : s = method
          · subst hsm
            cases ha : alookup m.rootNode.children s with
            | none =>
              rw [paramNameAt_lit_none ps ha] at hname
              exact Option.noConfusion hname
            | some root =>
              rw [paramNameAt_lit_some ps ha] at hname
              rw [paramNameAt_mk_lit_some _ _ _
                (alookup_ainsert_self m.rootNode.children s _) ps]
              simp only [Option.getD_some]
              exact insertSegs_paramNameAt (splitString rest '/') root h ps
                name hname
          · cases ha : alookup m.rootNode.children s with
            | none =>
              rw [paramNameAt_lit_none ps ha] at hname
              exact Option.noConfusion hname
            | some cnode =>
              rw [paramNameAt_lit_some ps ha] at hname
              rw [paramNameAt_mk_lit_some _ _ _
                ((alookup_ainsert_ne m.rootNode.children method s _ hsm).trans
                  ha) ps]
              exact hname
    · have h1 : m.addRoute method (c :: rest) h =
          some (m, some .noLeadingSlash) := by
        simp [Mux.addRoute, hs]
      have heq : addRouteD m method (c :: rest) h = m := by
        unfold addRouteD
        rw [h1]
      rw [heq]
      exact hname

/-- Claim C8: for every sequence of registration calls, an existing
parameter-child name at any tree position is never changed — once a
node's parameter child has been created with a given name, every later
registration leaves that name in place (a later registration through
that position with a different name fails with the conflict error and
mutates nothing, and a successful one reuses the identical name). -/
theorem c8_param_name_stable :
    ∀ (regs : List (List Char × List Char × Option Nat)) (m : Mux)
      (pos : List Edge) (name : Seg),
      paramNameAt m.rootNode pos = some name →
      paramNameAt (applyRoutes m regs).rootNode pos = some name := by
  intro regs
  induction regs with
  | nil => intro m pos name hname; exact hname
  | cons reg rest ih =>
    intro m pos name hname
    obtain ⟨method, path, h⟩ := reg
    exact ih (addRouteD m method path h) pos name
      (addRouteD_paramNameAt m method path h pos name hname)

theorem c8_param_name_stable_witness :
    paramNameAt muxParamFoo.rootNode [Edge.lit "GET".data] = some "foo".data ∧
    paramNameAt (applyRoutes muxParamFoo
        [("GET".data, "/a".data, some 1)]).rootNode
      [Edge.lit "GET".data] = some "foo".data :=
  ⟨rfl, c8_param_name_stable [("GET".data, "/a".data, some 1)] muxParamFoo
    [Edge.lit "GET".data] "foo".data rfl⟩

end Moku
